import Mathlib

/-!
Verification of the card-bot's refreshing cache, search/filter engine and
deck-diff comparator, shallowly embedded from `src/main.rs` and
`src/duelingbook.rs`.

Modelling conventions:
* Rust `String`s are Lean `String`s; the string operations the code uses
  (`to_lowercase`, `trim`, `split("*")`, `contains`, byte-order `cmp`)
  are re-implemented here on `List Char` so that they are executable and
  kernel-reducible.  `char::to_lowercase` / `char::is_whitespace` are
  modelled by `Char.toLower` / `Char.isWhitespace` (faithful on ASCII,
  which is all the claims exercise).  Byte-order comparison of UTF-8
  strings coincides with codepoint-lexicographic comparison, which is
  what `charListLE` implements.
* `chrono::DateTime<Utc>` instants and `chrono::Duration` are modelled as
  `Int` (a time axis); only `+` and `>=` are used by the code.
* `FreshData::get` runs entirely under the `tokio::sync::RwLock` write
  lock, so each call is modelled as a sequential state transition.  The
  two separate `Utc::now()` calls (the staleness check at line 69 and the
  expiry update at line 72 of `main.rs`) appear as the two time
  parameters `nowCheck` and `nowSet`.  The producer's outcome is passed
  in as an `Except`: the `Output = D` case is `.ok`, and a producer that
  fails (in `main.rs` the producer panics via `expect` on fetch/decode
  failure, which unwinds out of `get` before either field of the locked
  pair is written) is `.error`.  The returned `Bool` records whether the
  producer was invoked.
* `HashSet<String>` is a `List String` queried with `contains`;
  `HashMap<&DuelingBookCard, usize>` is an association list updated by
  `bump` (grouping keys by the derived structural equality, exactly as
  the derived `Hash`/`Eq` on `DuelingBookCard` does).  `check_deck`
  sorts entries before rendering, so the hash map's iteration order is
  determinised here as first-insertion order without affecting any
  rendered message the claims mention.
* Network effects are passed in as explicit arguments: `get_deck`
  receives the POST round-trip (including JSON decoding) as a function
  `network`, and returns a flag telling whether it was called.
-/

/-- Model of `chrono::DateTime<Utc>` / `chrono::Duration`: an integer time axis. -/
abbrev Time := Int

/-- State of `FreshData<D>` (main.rs lines 47-51): the configured refresh
interval `frequency` and the `RwLock`-guarded pair `(expires_at, value)`.
The `refresh` function pointer is supplied at each `get` call as the
producer's outcome. -/
structure FreshData (D : Type) where
  frequency : Time
  expires_at : Time
  value : D
deriving DecidableEq, Repr

/-- Model of `FreshData::new` (main.rs lines 54-64): the producer is invoked
once for the initial value and `expires_at` is set to `now + frequency`. -/
def FreshData.new (frequency : Time) (now : Time) (initial : D) : FreshData D :=
  { frequency := frequency, expires_at := now + frequency, value := initial }

/-- Model of `FreshData::get` (main.rs lines 66-76).  Under the write lock:
if `nowCheck >= expires_at` the producer runs; on success (`.ok d`) the
stored value becomes `d` and `expires_at` becomes `nowSet + frequency`
(`nowSet` is the second `Utc::now()` call, made after the refresh
completes); on producer failure the panic unwinds before either field is
assigned, leaving the state unchanged.  Otherwise the stored value is
returned untouched.  The result is the new state, the outcome handed to
the caller, and whether the producer was invoked. -/
def FreshData.get (s : FreshData D) (nowCheck nowSet : Time) (producer : Except E D) :
    FreshData D × Except E D × Bool :=
  if s.expires_at ≤ nowCheck then
    match producer with
    | .error err => (s, .error err, true)
    | .ok d => ({ s with expires_at := nowSet + s.frequency, value := d }, .ok d, true)
  else
    (s, .ok s.value, false)

/-- Model of `CardDatum` (main.rs lines 26-45).  The Rust field `def` is a
reserved word in Lean and is spelled `def_` here. -/
structure CardDatum where
  name : String
  full_type : String
  race : String
  desc : String
  frame_type : String
  archetype : String
  image_url : String
  ty : String
  category : Option (List String)
  attribute_ : Option String
  atk : Option Int
  def_ : Option Int
  number_value : Option Nat
  level : Option Nat
  linkval : Option Nat
deriving DecidableEq, Repr

/-- The character class of the `DISALLOWED_CHARACTERS` regex
`[?/'!,:&."]` (main.rs lines 83-88).  The apostrophe, comma and double
quote are written via `Char.ofNat` (codepoints 39, 44, 34). -/
def disallowed_characters : List Char :=
  ['?', '/', Char.ofNat 39, '!', Char.ofNat 44, ':', '&', '.', Char.ofNat 34]

/-- Model of `Regex::replace_all(term, "_")` with the disallowed-character
class: every occurrence of a disallowed character is replaced by an
underscore (each match of the single-character class is one character). -/
def replace_disallowed (l : List Char) : List Char :=
  l.map (fun c => if disallowed_characters.contains c then '_' else c)

/-- Model of `normalize_search_term` (main.rs lines 159-163): replace the
disallowed characters by `_`, then lower-case the whole string. -/
def normalize_search_term (term : String) : String :=
  String.mk ((replace_disallowed term.data).map Char.toLower)

/-- Model of `str::split("*")`: split a character list at every `'*'`;
an empty input yields the single empty fragment, like Rust. -/
def splitOnStar : List Char → List (List Char)
  | [] => [[]]
  | c :: t =>
    if c = '*' then [] :: splitOnStar t
    else
      match splitOnStar t with
      | [] => [[c]]
      | h :: r => (c :: h) :: r

/-- Model of `str::trim`: drop whitespace from both ends. -/
def trimChars (l : List Char) : List Char :=
  ((l.dropWhile Char.isWhitespace).reverse.dropWhile Char.isWhitespace).reverse

/-- Helper for substring search: does the second list start with the first? -/
def isPrefixList : List Char → List Char → Bool
  | [], _ => true
  | _ :: _, [] => false
  | a :: as, b :: bs => a == b && isPrefixList as bs

/-- Model of `str::contains(needle)`: the needle occurs as a contiguous
run inside the haystack.  (On valid UTF-8, byte-substring search and
character-substring search agree.) -/
def strContains (hay needle : List Char) : Bool :=
  match hay with
  | [] => isPrefixList needle []
  | _ :: t => isPrefixList needle hay || strContains t needle

/-- One filter predicate of `Data::filter_cards`: every `*`-separated,
trimmed sub-term of the query occurs in the (already normalized) field. -/
def matches_terms (field query : List Char) : Bool :=
  (splitOnStar query).all (fun t => strContains field (trimChars t))

/-- Model of `Data::filter_cards` (main.rs lines 166-193): normalize both
queries (absent queries become the empty string via `unwrap_or_default`),
then keep the cards whose normalized name contains every name sub-term
and whose normalized desc contains every effect sub-term, as two chained
`filter`s. -/
def filter_cards (cards : List CardDatum) (name effect : Option String) :
    List CardDatum :=
  let n := normalize_search_term (name.getD "")
  let e := normalize_search_term (effect.getD "")
  (cards.filter
      (fun card => matches_terms (normalize_search_term card.name).data n.data)).filter
    (fun card => matches_terms (normalize_search_term card.desc).data e.data)

/-- Codepoint-lexicographic order on character lists; this is exactly the
order `String::cmp` induces on Rust strings (byte order on UTF-8 agrees
with codepoint order). -/
def charListLE : List Char → List Char → Bool
  | [], _ => true
  | _ :: _, [] => false
  | a :: as, b :: bs => if a < b then true else if b < a then false else charListLE as bs

/-- Model of `cards.sort_by(|a, b| a.name.cmp(&b.name))` (main.rs line 201):
sort the filtered cards ascending by name. -/
def sortCardsByName (cards : List CardDatum) : List CardDatum :=
  List.insertionSort (fun a b => charListLE a.name.data b.name.data = true) cards

/-- Shape of the embed `Data::get_reply` produces, abstracting the serenity
embed internals: the "No cards found" embed, a single card's detail embed
(`CardDatum::make_embed`), or the "Multiple matches found" embed carrying
the listed names. -/
inductive Reply where
  | noResults : Reply
  | detail : CardDatum → Reply
  | disambiguation : List String → Reply
deriving DecidableEq, Repr

/-- Model of `Data::get_reply` (main.rs lines 195-220): filter, sort by
name, then branch on the number of matches (0 / 1 / many, the many case
listing the first 25 names). -/
def get_reply (cards : List CardDatum) (name effect : Option String) : Reply :=
  match sortCardsByName (filter_cards cards name effect) with
  | [] => .noResults
  | [c] => .detail c
  | a :: b :: t => .disambiguation (((a :: b :: t).take 25).map CardDatum.name)

/-- Model of `DuelingBookCard` (duelingbook.rs lines 9-39); all fields are
kept so that the derived equality is the full structural equality the
Rust `#[derive(Hash, PartialEq, Eq)]` provides. -/
structure DuelingBookCard where
  id : Nat
  name : String
  treated_as : String
  effect : String
  pendulum_effect : String
  card_type : String
  monster_color : String
  is_effect : Nat
  ty : String
  attribute_ : String
  level : Nat
  ability : String
  flip : Nat
  pendulum : Nat
  scale : Nat
  arrows : String
  atk : String
  def_ : String
  tcg_limit : Nat
  ocg_limit : Nat
  serial_number : String
  tcg : Nat
  ocg : Nat
  rush : Nat
  pic : String
  hidden : Nat
  username : Option String
deriving DecidableEq, Repr

/-- Model of `DuelingBookDeck` (duelingbook.rs lines 41-53). -/
structure DuelingBookDeck where
  action : String
  id : Nat
  name : String
  main : List DuelingBookCard
  side : List DuelingBookCard
  extra : List DuelingBookCard
  legality : String
  tcg : String
  ocg : String
  links : String
deriving DecidableEq, Repr

/-- Model of `DuelingBookDeck::get_deck` (duelingbook.rs lines 57-73) after
URL parsing: `query_pairs` are the URL's decoded query pairs and
`network` is the POST round-trip to `load-deck.php` followed by JSON
decoding (both external collaborators).  If no pair has key `id`, the
call fails with the URL error before any network activity; otherwise the
network result is returned.  The `Bool` records whether `network` ran. -/
def get_deck (query_pairs : List (String × String))
    (network : String → Except String DuelingBookDeck) :
    Except String DuelingBookDeck × Bool :=
  match query_pairs.find? (fun p => p.1 == "id") with
  | none => (.error "no id in duelingbook URL", false)
  | some p => (network p.2, true)

/-- Association-list update modelling `*invalids.entry(card).or_default() += 1`:
increment the count stored under the (structurally compared) key, or
append the key with count 1. -/
def bump (l : List (DuelingBookCard × Nat)) (c : DuelingBookCard) :
    List (DuelingBookCard × Nat) :=
  match l with
  | [] => [(c, 1)]
  | (k, v) :: rest => if k = c then (k, v + 1) :: rest else (k, v) :: bump rest c

/-- Model of `track_invalids` (main.rs lines 301-314): walk the group; every
card whose name is not in `valid_cards` is tallied in the map (grouped by
full structural equality) and counted in the running total. -/
def track_invalids (valid_cards : List String) (cards : List DuelingBookCard) :
    List (DuelingBookCard × Nat) × Nat :=
  cards.foldl
    (fun acc card =>
      if valid_cards.contains card.name then acc
      else (bump acc.1 card, acc.2 + 1))
    ([], 0)

/-- Count stored under a key in the association list (0 when absent). -/
def lookupCount : List (DuelingBookCard × Nat) → DuelingBookCard → Nat
  | [], _ => 0
  | (k, v) :: t, c => if k = c then v else lookupCount t c

/-- Decimal rendering of the counts interpolated into the report
(`format!` on a `usize`). -/
def natToString (n : Nat) : String :=
  String.mk (Nat.toDigits 10 n)

/-- Model of `Vec::join(sep)` as used on the report lines. -/
def joinWith (sep : String) : List String → String
  | [] => ""
  | [x] => x
  | x :: xs => x ++ sep ++ joinWith sep xs

/-- Rendering of one invalid entry (main.rs lines 327-335):
`- **{name}**{custom} x {count}`, where `{custom}` is
` *(custom by: {username})*` exactly when the card carries a username. -/
def format_invalid (card : DuelingBookCard) (count : Nat) : String :=
  "- **" ++ card.name ++ "**" ++
    (match card.username with
     | some u => " *(custom by: " ++ u ++ ")*"
     | none => "") ++ " x " ++ natToString count

/-- Sorting of the invalid entries by card name
(`entries.sort_by_key(|(c, _)| &c.name)`, main.rs line 325). -/
def sortEntriesByName (l : List (DuelingBookCard × Nat)) :
    List (DuelingBookCard × Nat) :=
  List.insertionSort (fun p q => charListLE p.1.name.data q.1.name.data = true) l

/-- Model of the `add_invalids` closure (main.rs lines 316-338): nothing for
a group with an empty invalid map, otherwise the group header followed by
the name-sorted entries. -/
def add_invalids (name : String) (invalids : List (DuelingBookCard × Nat))
    (invalid_count : Nat) : List String :=
  if invalids.isEmpty then []
  else
    ("## " ++ name ++ " deck includes " ++ natToString invalid_count ++
        " invalid cards:") ::
      (sortEntriesByName invalids).map (fun p => format_invalid p.1 p.2)

/-- Model of the report assembly in `check_deck` (main.rs lines 340-355):
run `track_invalids` per group; if all three maps are empty the report is
the literal valid message, otherwise the total header followed by the
Main, Side and Extra sections, joined with newlines. -/
def check_deck (valid_cards : List String) (deck : DuelingBookDeck) : String :=
  let m := track_invalids valid_cards deck.main
  let s := track_invalids valid_cards deck.side
  let e := track_invalids valid_cards deck.extra
  if m.1.isEmpty && s.1.isEmpty && e.1.isEmpty then "This deck is valid."
  else
    joinWith "\n"
      (("# This deck has the following " ++ natToString (m.2 + s.2 + e.2) ++
          " invalid cards:") ::
        (add_invalids "Main" m.1 m.2 ++ add_invalids "Side" s.1 s.2 ++
          add_invalids "Extra" e.1 e.2))

/-- A deck card with every Yu-Gi-Oh attribute defaulted; the fields the
deck-diff claims exercise are the name and the username. -/
def sampleCard (name : String) (username : Option String) : DuelingBookCard :=
  { id := 0, name := name, treated_as := "", effect := "", pendulum_effect := ""
  , card_type := "", monster_color := "", is_effect := 0, ty := ""
  , attribute_ := "", level := 0, ability := "", flip := 0, pendulum := 0
  , scale := 0, arrows := "", atk := "0", def_ := "0", tcg_limit := 0
  , ocg_limit := 0, serial_number := "", tcg := 0, ocg := 0, rush := 0
  , pic := "", hidden := 0, username := username }

/-- A deck whose non-group fields are defaulted; the validation claims only
exercise the three card groups. -/
def mkDeck (main side extra : List DuelingBookCard) : DuelingBookDeck :=
  { action := "", id := 0, name := "", main := main, side := side, extra := extra
  , legality := "", tcg := "", ocg := "", links := "" }

/-- A card datum with the non-matching fields defaulted; search claims
only exercise `name` and `desc`. -/
def sampleDatum (name desc : String) : CardDatum :=
  { name := name, full_type := "", race := "", desc := desc, frame_type := ""
  , archetype := "", image_url := "", ty := "", category := none
  , attribute_ := none, atk := none, def_ := none, number_value := none
  , level := none, linkval := none }

/-! ## Helper lemmas -/

theorem strContains_nil (hay : List Char) : strContains hay [] = true := by
  cases hay <;> simp [strContains, isPrefixList]

theorem matches_terms_empty_query (field : List Char) :
    matches_terms field [] = true := by
  simp [matches_terms, splitOnStar, trimChars, strContains_nil]

theorem normalize_empty : normalize_search_term "" = "" := rfl

theorem charListLE_total : ∀ a b : List Char,
    charListLE a b = true ∨ charListLE b a = true := by
  intro a
  induction a with
  | nil => intro b; left; simp [charListLE]
  | cons x xs ih =>
    intro b
    cases b with
    | nil => right; simp [charListLE]
    | cons y ys =>
      by_cases hxy : x < y
      · left; simp [charListLE, hxy]
      · by_cases hyx : y < x
        · right; simp [charListLE, hyx, asymm hyx]
        · have hxy' : x = y := le_antisymm (not_lt.mp hyx) (not_lt.mp hxy)
          subst hxy'
          rcases ih ys with h | h
          · left; simp [charListLE, lt_irrefl, h]
          · right; simp [charListLE, lt_irrefl, h]

theorem charListLE_trans : ∀ a b c : List Char,
    charListLE a b = true → charListLE b c = true → charListLE a c = true := by
  intro a
  induction a with
  | nil => intro b c _ _; simp [charListLE]
  | cons x xs ih =>
    intro b c hab hbc
    cases b with
    | nil => simp [charListLE] at hab
    | cons y ys =>
      cases c with
      | nil => simp [charListLE] at hbc
      | cons z zs =>
        by_cases hxy : x < y
        · by_cases hyz : y < z
          · simp [charListLE, lt_trans hxy hyz]
          · by_cases hzy : z < y
            · simp [charListLE, hyz, hzy] at hbc
            · have : y = z := le_antisymm (not_lt.mp hzy) (not_lt.mp hyz)
              subst this
              simp [charListLE, hxy]
        · by_cases hyx : y < x
          · simp [charListLE, hxy, hyx] at hab
          · have hx : x = y := le_antisymm (not_lt.mp hyx) (not_lt.mp hxy)
            subst hx
            simp only [charListLE, lt_irrefl, if_false] at hab
            by_cases hyz : x < z
            · simp [charListLE, hyz]
            · by_cases hzy : z < x
              · simp [charListLE, hyz, hzy] at hbc
              · have : x = z := le_antisymm (not_lt.mp hzy) (not_lt.mp hyz)
                subst this
                simp only [charListLE, lt_irrefl, if_false] at hbc ⊢
                exact ih ys zs hab hbc

/-! ## C1: cache hit before expiry, refresh at/after expiry -/

/-- C1: a `get` strictly before `expires_at` returns the stored value with
the producer not invoked and the state untouched (for any pending producer
outcome); a `get` at/after `expires_at` with a successful producer invokes
it, stores its result, and sets `expires_at := nowSet + frequency`; and
after such a successful refresh, any later `get` strictly before the new
expiry returns exactly the refreshed value without invoking the producer. -/
theorem FreshData.get_spec {D E : Type} (s : FreshData D) (nowCheck nowSet : Time)
    (producer : Except E D) :
    (nowCheck < s.expires_at →
      s.get nowCheck nowSet producer = (s, .ok s.value, false)) ∧
    (s.expires_at ≤ nowCheck → ∀ d, producer = .ok d →
      s.get nowCheck nowSet producer =
        ({ s with expires_at := nowSet + s.frequency, value := d }, .ok d, true)) ∧
    (∀ (d : D) (s2 : FreshData D) (r2 : Except E D) (b2 : Bool), s.expires_at ≤ nowCheck →
      s.get nowCheck nowSet (.ok d) = (s2, r2, b2) →
      ∀ nc2 ns2 (p2 : Except E D), nc2 < s2.expires_at →
        s2.get nc2 ns2 p2 = (s2, .ok d, false)) := by
  refine ⟨?_, ?_, ?_⟩
  · intro h
    simp [FreshData.get, not_le.mpr h]
  · intro h d hd
    subst hd
    simp [FreshData.get, h]
  · intro d s2 r2 b2 h hget nc2 ns2 p2 h2
    have hs2 : s2 = { s with expires_at := nowSet + s.frequency, value := d } := by
      simp [FreshData.get, h] at hget
      exact hget.1.symm
    have hv : s2.value = d := by rw [hs2]
    simp [FreshData.get, not_le.mpr h2, hv]

/-- Witness for C1 on a concrete cache (frequency 10, expiry 5, value 42):
a read at time 4 serves the cache, a read at time 5 refreshes to 7 with
expiry 16, and a read at time 7 then serves 7 without refreshing. -/
theorem FreshData.get_spec_witness :
    FreshData.get (FreshData.mk 10 5 42) 4 4 (Except.ok 0 : Except String Nat) =
      (FreshData.mk 10 5 42, .ok 42, false) ∧
    FreshData.get (FreshData.mk 10 5 42) 5 6 (Except.ok 7 : Except String Nat) =
      (FreshData.mk 10 16 7, .ok 7, true) ∧
    FreshData.get (FreshData.mk 10 16 7) 7 8 (Except.error "late" : Except String Nat) =
      (FreshData.mk 10 16 7, .ok 7, false) := by
  refine ⟨?_, ?_, ?_⟩
  · exact (FreshData.get_spec (FreshData.mk 10 5 42) 4 4
      (Except.ok 0 : Except String Nat)).1 (by decide)
  · exact (FreshData.get_spec (FreshData.mk 10 5 42) 5 6
      (Except.ok 7 : Except String Nat)).2.1 (by decide) 7 rfl
  · exact (FreshData.get_spec (FreshData.mk 10 5 42) 5 6
      (Except.ok 7 : Except String Nat)).2.2 7
      (FreshData.mk 10 16 7) (.ok 7) true (by decide) rfl 7 8 (.error "late") (by decide)

/-! ## C2: producer failure leaves the cache untouched -/

/-- C2: when a refresh is due and the producer fails, the failure is handed
to the triggering caller, the state (previous value and `expires_at`) is
unchanged, and every later `get` (at a time no earlier than this one) is
again due and invokes the producer anew. -/
theorem FreshData.get_error_spec {D E : Type} (s : FreshData D) (nowCheck nowSet : Time)
    (err : E) (h : s.expires_at ≤ nowCheck) :
    s.get nowCheck nowSet (.error err) = (s, .error err, true) ∧
    ∀ nc2 ns2 (p2 : Except E D), nowCheck ≤ nc2 →
      (s.get nc2 ns2 p2).2.2 = true := by
  constructor
  · simp [FreshData.get, h]
  · intro nc2 ns2 p2 h2
    have : s.expires_at ≤ nc2 := le_trans h h2
    cases p2 <;> simp [FreshData.get, this]

/-- Witness for C2: on the cache (frequency 10, expiry 5, value 42), a
failing refresh at time 6 propagates the error with the state intact, and
a retry at time 8 invokes the producer again. -/
theorem FreshData.get_error_spec_witness :
    FreshData.get (FreshData.mk 10 5 42) 6 6 (Except.error "down" : Except String Nat) =
      (FreshData.mk 10 5 42, .error "down", true) ∧
    (FreshData.get (FreshData.mk 10 5 42) 8 9 (Except.ok 7 : Except String Nat)).2.2
      = true := by
  constructor
  · exact (FreshData.get_error_spec (FreshData.mk 10 5 42) 6 6 "down" (by decide)).1
  · exact (FreshData.get_error_spec (FreshData.mk 10 5 42) 6 6 "down" (by decide)).2
      8 9 (.ok 7) (by decide)

/-! ## C8: a deck URL without an id parameter fails before the network -/

/-- C8: when no query pair of the deck URL has key `id`, `get_deck` returns
the URL error with the network untouched, and its result does not depend
on the network at all. -/
theorem get_deck_no_id (query_pairs : List (String × String))
    (network : String → Except String DuelingBookDeck)
    (h : ∀ p ∈ query_pairs, p.1 ≠ "id") :
    get_deck query_pairs network = (.error "no id in duelingbook URL", false) ∧
    ∀ network2, get_deck query_pairs network = get_deck query_pairs network2 := by
  have hfind : query_pairs.find? (fun p => p.1 == "id") = none := by
    apply List.find?_eq_none.mpr
    intro p hp
    simpa using h p hp
  constructor
  · simp [get_deck, hfind]
  · intro network2
    simp [get_deck, hfind]

/-- Witness for C8: a URL whose only query pair is `deck=1` fails with the
URL error and never consults the network. -/
theorem get_deck_no_id_witness :
    get_deck [("deck", "1")] (fun _ => .error "network reached") =
      (.error "no id in duelingbook URL", false) ∧
    ∀ network2, get_deck [("deck", "1")] (fun _ => .error "network reached") =
      get_deck [("deck", "1")] network2 :=
  get_deck_no_id [("deck", "1")] (fun _ => .error "network reached")
    (by intro p hp; simp at hp; simp [hp])

/-! ## C3: normalization replaces punctuation (it does not remove it) -/

/-- C3 counterexample: the claim says normalization removes the punctuation
characters, but `normalize_search_term "!"` is `"_"`, not `""` — the
regex's replacement string is `"_"`, so the characters are replaced by
underscores, not removed. -/
theorem normalize_search_term_replaces_cex :
    normalize_search_term "!" = "_" ∧ normalize_search_term "!" ≠ "" := by
  constructor
  · rfl
  · decide

/-- C3 (amended): normalization maps each character of the fixed punctuation
set to an underscore, leaves every other character in place, lower-cases
the result, and in particular preserves the length of its input; the same
`normalize_search_term` is the function `filter_cards` applies to card
names, card descriptions, and both query strings. -/
theorem normalize_search_term_spec (s : String) :
    (normalize_search_term s).data =
      s.data.map (fun c =>
        Char.toLower (if disallowed_characters.contains c then '_' else c)) ∧
    (normalize_search_term s).length = s.length := by
  constructor
  · simp [normalize_search_term, replace_disallowed, List.map_map]
  · show ((replace_disallowed s.data).map Char.toLower).length = s.data.length
    simp [replace_disallowed]

/-! ## C4: filter keeps exactly the cards matching every sub-term -/

/-- C4: a card survives `filter_cards` exactly when it is in the snapshot
and its normalized name contains every trimmed `*`-separated sub-term of
the normalized name query and its normalized desc contains every trimmed
sub-term of the normalized effect query; absent queries (and empty
queries) keep every card. -/
theorem filter_cards_spec (cards : List CardDatum) (nameQ effectQ : Option String)
    (c : CardDatum) :
    (c ∈ filter_cards cards nameQ effectQ ↔
      c ∈ cards ∧
      (∀ t ∈ splitOnStar (normalize_search_term (nameQ.getD "")).data,
        strContains (normalize_search_term c.name).data (trimChars t) = true) ∧
      (∀ t ∈ splitOnStar (normalize_search_term (effectQ.getD "")).data,
        strContains (normalize_search_term c.desc).data (trimChars t) = true)) ∧
    filter_cards cards none none = cards ∧
    filter_cards cards (some "") (some "") = cards := by
  refine ⟨?_, ?_, ?_⟩
  · simp only [filter_cards, List.mem_filter, matches_terms, List.all_eq_true]
    tauto
  · simp [filter_cards, normalize_empty, matches_terms_empty_query]
  · simp [filter_cards, normalize_empty, matches_terms_empty_query]

/-! ## C6 / C10: deck-diff counting -/

theorem lookupCount_bump_self (l : List (DuelingBookCard × Nat)) (c : DuelingBookCard) :
    lookupCount (bump l c) c = lookupCount l c + 1 := by
  induction l with
  | nil => simp [bump, lookupCount]
  | cons p t ih =>
    obtain ⟨k, v⟩ := p
    by_cases h : k = c
    · subst h; simp [bump, lookupCount]
    · simp [bump, lookupCount, h, ih]

theorem lookupCount_bump_ne (l : List (DuelingBookCard × Nat)) (c d : DuelingBookCard)
    (h : c ≠ d) : lookupCount (bump l c) d = lookupCount l d := by
  induction l with
  | nil => simp [bump, lookupCount, h]
  | cons p t ih =>
    obtain ⟨k, v⟩ := p
    by_cases hk : k = c
    · subst hk
      simp [bump, lookupCount, h]
    · by_cases hd : k = d
      · subst hd; simp [bump, lookupCount, hk]
      · simp [bump, lookupCount, hk, hd, ih]

theorem track_foldl_lookup (valid : List String) (c : DuelingBookCard) :
    ∀ (cards : List DuelingBookCard) (acc : List (DuelingBookCard × Nat) × Nat),
      lookupCount
          (cards.foldl
            (fun acc card =>
              if valid.contains card.name then acc else (bump acc.1 card, acc.2 + 1))
            acc).1 c =
        lookupCount acc.1 c + (if valid.contains c.name then 0 else cards.count c) := by
  intro cards
  induction cards with
  | nil => intro acc; simp
  | cons card rest ih =>
    intro acc
    simp only [List.foldl_cons]
    by_cases hv : valid.contains card.name
    · rw [if_pos hv, ih]
      by_cases hvc : valid.contains c.name
      · rw [if_pos hvc, if_pos hvc]
      · rw [if_neg hvc, if_neg hvc]
        have hc : card ≠ c := fun h => hvc (h ▸ hv)
        simp [List.count_cons, hc]
    · rw [if_neg hv, ih]
      by_cases hc : card = c
      · subst hc
        rw [if_neg hv, if_neg hv, lookupCount_bump_self]
        simp [List.count_cons]
        omega
      · rw [lookupCount_bump_ne _ _ _ hc]
        by_cases hvc : valid.contains c.name
        · rw [if_pos hvc, if_pos hvc]
        · rw [if_neg hvc, if_neg hvc]
          simp [List.count_cons, hc]

theorem track_foldl_total (valid : List String) :
    ∀ (cards : List DuelingBookCard) (acc : List (DuelingBookCard × Nat) × Nat),
      (cards.foldl
          (fun acc card =>
            if valid.contains card.name then acc else (bump acc.1 card, acc.2 + 1))
          acc).2 =
        acc.2 + (cards.filter (fun x => !valid.contains x.name)).length := by
  intro cards
  induction cards with
  | nil => intro acc; simp
  | cons card rest ih =>
    intro acc
    simp only [List.foldl_cons]
    by_cases hv : valid.contains card.name
    · rw [if_pos hv, ih, List.filter_cons]
      have hm : card.name ∈ valid := by simpa using hv
      simp [hm]
    · rw [if_neg hv, ih, List.filter_cons]
      simp only [hv, Bool.not_false, if_pos, List.length_cons]
      simp [hv]
      omega

/-- C6: a card's tally in the invalid map is 0 when its name is in the
canonical set and otherwise its number of (structurally equal) occurrences
in the group; the returned total counts every invalid occurrence; and on
canonical names `Card A, Card B` and group `[Card A, Card C, Card C]` the
result is the map `Card C : 2` with total 2. -/
theorem track_invalids_spec (valid : List String) (cards : List DuelingBookCard)
    (c : DuelingBookCard) :
    lookupCount (track_invalids valid cards).1 c =
      (if valid.contains c.name then 0 else cards.count c) ∧
    (track_invalids valid cards).2 =
      (cards.filter (fun x => !valid.contains x.name)).length ∧
    track_invalids ["Card A", "Card B"]
        [sampleCard "Card A" none, sampleCard "Card C" none, sampleCard "Card C" none] =
      ([(sampleCard "Card C" none, 2)], 2) := by
  refine ⟨?_, ?_, by decide⟩
  · have h := track_foldl_lookup valid c cards ([], 0)
    simpa [track_invalids, lookupCount] using h
  · have h := track_foldl_total valid cards ([], 0)
    simpa [track_invalids] using h

/-- C10: a deck card whose name is in the canonical set is never tallied in
the invalid map, and appending such a card to a group changes neither the
invalid map nor the total — validity depends on the name alone, whatever
the username and the other fields hold. -/
theorem track_invalids_valid_name (valid : List String) (cards : List DuelingBookCard)
    (c : DuelingBookCard) (h : valid.contains c.name = true) :
    lookupCount (track_invalids valid cards).1 c = 0 ∧
    track_invalids valid (cards ++ [c]) = track_invalids valid cards := by
  constructor
  · have hl := track_foldl_lookup valid c cards ([], 0)
    rw [if_pos h] at hl
    unfold track_invalids
    rw [hl]
    simp [lookupCount]
  · unfold track_invalids
    rw [List.foldl_append]
    simp only [List.foldl_cons, List.foldl_nil]
    rw [if_pos h]

/-- Witness for C10: the custom card `Card A (custom by bob)` reuses the
canonical name `Card A`, is not tallied, and appending it to a group
leaves the diff unchanged. -/
theorem track_invalids_valid_name_witness :
    lookupCount (track_invalids ["Card A"] [sampleCard "Card B" none]).1
        (sampleCard "Card A" (some "bob")) = 0 ∧
    track_invalids ["Card A"]
        ([sampleCard "Card B" none] ++ [sampleCard "Card A" (some "bob")]) =
      track_invalids ["Card A"] [sampleCard "Card B" none] :=
  track_invalids_valid_name ["Card A"] [sampleCard "Card B" none]
    (sampleCard "Card A" (some "bob")) (by decide)

/-! ## C5: sort ascending by name, then branch on the match count -/

/-- C5: the search reply sorts the filtered cards ascending by name
(codepoint order, which is byte order on UTF-8) and branches on the match
count: no match gives the no-results reply, a unique match gives that
card's detail view, and two or more matches give the disambiguation reply
listing the names of the first 25 sorted cards. -/
theorem get_reply_branches (cards : List CardDatum) (nameQ effectQ : Option String) :
    (filter_cards cards nameQ effectQ = [] →
      get_reply cards nameQ effectQ = .noResults) ∧
    (∀ c, filter_cards cards nameQ effectQ = [c] →
      get_reply cards nameQ effectQ = .detail c) ∧
    (2 ≤ (filter_cards cards nameQ effectQ).length →
      get_reply cards nameQ effectQ =
        .disambiguation
          (((sortCardsByName (filter_cards cards nameQ effectQ)).take 25).map
            CardDatum.name) ∧
      List.Sorted (fun a b => charListLE a.name.data b.name.data = true)
        (sortCardsByName (filter_cards cards nameQ effectQ)) ∧
      (sortCardsByName (filter_cards cards nameQ effectQ)).Perm
        (filter_cards cards nameQ effectQ) ∧
      (((sortCardsByName (filter_cards cards nameQ effectQ)).take 25).map
          CardDatum.name).length =
        min 25 (filter_cards cards nameQ effectQ).length) := by
  refine ⟨?_, ?_, ?_⟩
  · intro h
    simp [get_reply, h, sortCardsByName, List.insertionSort]
  · intro c h
    simp [get_reply, h, sortCardsByName, List.insertionSort, List.orderedInsert]
  · intro h
    have hperm : (sortCardsByName (filter_cards cards nameQ effectQ)).Perm
        (filter_cards cards nameQ effectQ) := List.perm_insertionSort _ _
    have hlen := hperm.length_eq
    have hsorted : List.Sorted (fun a b => charListLE a.name.data b.name.data = true)
        (sortCardsByName (filter_cards cards nameQ effectQ)) := by
      haveI : IsTotal CardDatum (fun a b => charListLE a.name.data b.name.data = true) :=
        ⟨fun a b => charListLE_total _ _⟩
      haveI : IsTrans CardDatum (fun a b => charListLE a.name.data b.name.data = true) :=
        ⟨fun a b c => charListLE_trans _ _ _⟩
      exact List.sorted_insertionSort _ _
    obtain ⟨a, b, t, hs⟩ : ∃ a b t,
        sortCardsByName (filter_cards cards nameQ effectQ) = a :: b :: t := by
      rcases hsl : sortCardsByName (filter_cards cards nameQ effectQ) with _ | ⟨a, rest⟩
      · rw [hsl] at hlen
        simp at hlen
        omega
      · rcases rest with _ | ⟨b, t⟩
        · rw [hsl] at hlen
          simp at hlen
          omega
        · exact ⟨a, b, t, rfl⟩
    refine ⟨?_, hsorted, hperm, ?_⟩
    · unfold get_reply
      rw [hs]
    · rw [List.length_map, List.length_take, hlen]

/-- Witness for C5: on concrete snapshots an empty filter result yields the
no-results reply, a singleton yields the detail view, and two matches
yield the disambiguation reply listing both names in sorted order. -/
theorem get_reply_branches_witness :
    get_reply [] none none = .noResults ∧
    get_reply [sampleDatum "a" ""] none none = .detail (sampleDatum "a" "") ∧
    get_reply [sampleDatum "b" "", sampleDatum "a" ""] none none =
      .disambiguation ["a", "b"] := by
  refine ⟨?_, ?_, ?_⟩
  · exact (get_reply_branches [] none none).1 rfl
  · exact (get_reply_branches [sampleDatum "a" ""] none none).2.1
      (sampleDatum "a" "") (by decide)
  · have h := (get_reply_branches [sampleDatum "b" "", sampleDatum "a" ""]
      none none).2.2 (by decide)
    rw [h.1]
    decide

/-! ## C7: deck validation report -/

/-- C7: when the three groups' invalid maps are all empty the report is
exactly the literal valid-deck message (whatever the deck's size);
otherwise it is the total header followed by the Main, Side and Extra
sections in that fixed order, where a non-empty group's section is its
header carrying the group's invalid occurrence count followed by the
distinct invalid cards sorted by name; each entry carries its occurrence
count, with the `custom by` suffix exactly when the card has a username. -/
theorem check_deck_report (valid : List String) (deck : DuelingBookDeck) :
    ((track_invalids valid deck.main).1 = [] ∧ (track_invalids valid deck.side).1 = [] ∧
        (track_invalids valid deck.extra).1 = [] →
      check_deck valid deck = "This deck is valid.") ∧
    (¬ ((track_invalids valid deck.main).1 = [] ∧
        (track_invalids valid deck.side).1 = [] ∧
        (track_invalids valid deck.extra).1 = []) →
      check_deck valid deck =
        joinWith "\n"
          (("# This deck has the following " ++
              natToString ((track_invalids valid deck.main).2 +
                (track_invalids valid deck.side).2 +
                (track_invalids valid deck.extra).2) ++ " invalid cards:") ::
            (add_invalids "Main" (track_invalids valid deck.main).1
                (track_invalids valid deck.main).2 ++
              add_invalids "Side" (track_invalids valid deck.side).1
                (track_invalids valid deck.side).2 ++
              add_invalids "Extra" (track_invalids valid deck.extra).1
                (track_invalids valid deck.extra).2))) ∧
    (∀ (g : String) (inv : List (DuelingBookCard × Nat)) (cnt : Nat), inv ≠ [] →
      add_invalids g inv cnt =
        ("## " ++ g ++ " deck includes " ++ natToString cnt ++ " invalid cards:") ::
          (sortEntriesByName inv).map (fun p => format_invalid p.1 p.2) ∧
      List.Sorted (fun p q => charListLE p.1.name.data q.1.name.data = true)
        (sortEntriesByName inv)) ∧
    (∀ (card : DuelingBookCard) (cnt : Nat) (u : String), card.username = some u →
      format_invalid card cnt =
        "- **" ++ card.name ++ "** *(custom by: " ++ u ++ ")* x " ++ natToString cnt) ∧
    (∀ (card : DuelingBookCard) (cnt : Nat), card.username = none →
      format_invalid card cnt =
        "- **" ++ card.name ++ "** x " ++ natToString cnt) := by
  refine ⟨?_, ?_, ?_, ?_, ?_⟩
  · rintro ⟨h1, h2, h3⟩
    simp [check_deck, h1, h2, h3]
  · intro h
    have hb : ((track_invalids valid deck.main).1.isEmpty &&
        (track_invalids valid deck.side).1.isEmpty &&
        (track_invalids valid deck.extra).1.isEmpty) = false := by
      by_contra hb
      have hb' := (Bool.not_eq_false _).mp hb
      simp only [Bool.and_eq_true, List.isEmpty_iff] at hb'
      exact h ⟨hb'.1.1, hb'.1.2, hb'.2⟩
    simp [check_deck, hb]
  · intro g inv cnt hne
    constructor
    · have hq : inv.isEmpty = false := by simpa [List.isEmpty_iff] using hne
      simp [add_invalids, hq]
    · haveI : IsTotal (DuelingBookCard × Nat)
          (fun p q => charListLE p.1.name.data q.1.name.data = true) :=
        ⟨fun a b => charListLE_total _ _⟩
      haveI : IsTrans (DuelingBookCard × Nat)
          (fun p q => charListLE p.1.name.data q.1.name.data = true) :=
        ⟨fun a b c => charListLE_trans _ _ _⟩
      exact List.sorted_insertionSort _ _
  · intro card cnt u hu
    apply String.ext
    simp [format_invalid, hu]
  · intro card cnt hu
    apply String.ext
    simp [format_invalid, hu]

/-- Witness for C7 on concrete decks: a deck whose only card is canonical
reports the literal valid message; a deck holding one custom invalid card
renders the full report; a one-entry invalid map renders its header and
entry; and the entry line carries the custom suffix exactly when a
username is present. -/
theorem check_deck_report_witness :
    check_deck ["Card A"] (mkDeck [sampleCard "Card A" none] [] []) =
      "This deck is valid." ∧
    check_deck ["Card A"] (mkDeck [sampleCard "Card B" (some "alice")] [] []) =
      "# This deck has the following 1 invalid cards:\n## Main deck includes 1 invalid cards:\n- **Card B** *(custom by: alice)* x 1" ∧
    add_invalids "Main" [(sampleCard "Card B" none, 2)] 2 =
      ["## Main deck includes 2 invalid cards:", "- **Card B** x 2"] ∧
    format_invalid (sampleCard "Card B" (some "alice")) 1 =
      "- **Card B** *(custom by: alice)* x 1" ∧
    format_invalid (sampleCard "Card B" none) 2 = "- **Card B** x 2" := by
  refine ⟨?_, ?_, ?_, ?_, ?_⟩
  · exact (check_deck_report ["Card A"] (mkDeck [sampleCard "Card A" none] [] [])).1
      (by decide)
  · have h := (check_deck_report ["Card A"]
      (mkDeck [sampleCard "Card B" (some "alice")] [] [])).2.1 (by decide)
    rw [h]
    decide
  · have h := (check_deck_report [] (mkDeck [] [] [])).2.2.1
      "Main" [(sampleCard "Card B" none, 2)] 2 (by decide)
    rw [h.1]
    decide
  · have h := (check_deck_report [] (mkDeck [] [] [])).2.2.2.1
      (sampleCard "Card B" (some "alice")) 1 "alice" rfl
    rw [h]
    decide
  · have h := (check_deck_report [] (mkDeck [] [] [])).2.2.2.2
      (sampleCard "Card B" none) 2 rfl
    rw [h]
    decide
